import Mathlib

/-!
Verification of the face-verification pipeline's core numeric logic.

The JavaScript source is shallowly embedded: JS numbers are modelled as
rationals (`ℚ`) where the code performs only field arithmetic and
comparisons, and as reals (`ℝ`) where square roots are taken.  Arrays
become `List`s, fallible functions return `Option`/`Except`.
-/

set_option maxRecDepth 8192

namespace FaceVerif

/-- Model of JavaScript `Math.round`: rounds half toward positive infinity
(`Math.round(-2.5) = -2`), i.e. `⌊q + 1/2⌋`. -/
def jsRound (q : ℚ) : ℤ := ⌊q + 1/2⌋

/-- Source `src/utils/math.js` `clamp(value, min, max) = Math.min(Math.max(value, min), max)`. -/
def clamp (value lo hi : ℚ) : ℚ := min (max value lo) hi

/-- An axis-aligned bounding box `{x, y, width, height}`. -/
structure Box where
  x : ℚ
  y : ℚ
  width : ℚ
  height : ℚ
deriving DecidableEq, Repr

/-- A detection candidate: a bounding box plus a confidence score. -/
structure DetBox extends Box where
  score : ℚ
deriving DecidableEq, Repr

/-- Source `src/utils/math.js` `calculateIOU`: intersection-over-union of two
axis-aligned boxes, `0` when the union is `≤ 0`. -/
def calculateIOU (boxA boxB : Box) : ℚ :=
  let x1 := max boxA.x boxB.x
  let y1 := max boxA.y boxB.y
  let x2 := min (boxA.x + boxA.width) (boxB.x + boxB.width)
  let y2 := min (boxA.y + boxA.height) (boxB.y + boxB.height)
  let width := max 0 (x2 - x1)
  let height := max 0 (y2 - y1)
  let intersection := width * height
  let areaA := boxA.width * boxA.height
  let areaB := boxB.width * boxB.height
  let union := areaA + areaB - intersection
  if union ≤ 0 then 0 else intersection / union

/-- One insertion step of a stable descending-by-score sort, modelling the JS
stable `Array.prototype.sort((a, b) => b.score - a.score)`:
an element is placed after every earlier element of at least its score. -/
def insertByScore (b : DetBox) : List DetBox → List DetBox
  | [] => [b]
  | c :: cs => if b.score < c.score then c :: insertByScore b cs else b :: c :: cs

/-- Stable sort by score descending (insertion sort). -/
def sortByScoreDesc (l : List DetBox) : List DetBox := l.foldr insertByScore []

/-- The `while (sorted.length)` loop of `_applyNMS` in
`src/services/faceDetectionService.js`: take the head into the kept set and
drop every remaining candidate whose IoU with it exceeds the threshold.
`fuel` bounds the iteration count; each iteration consumes at least one
element, so fuel equal to the list length is exact. -/
def nmsLoop (threshold : ℚ) : Nat → List DetBox → List DetBox
  | 0, _ => []
  | _ + 1, [] => []
  | fuel + 1, current :: rest =>
      current ::
        nmsLoop threshold fuel
          (rest.filter fun b => !decide (threshold < calculateIOU current.toBox b.toBox))

/-- Source `_applyNMS(boxes, threshold)`: sort by score descending, then
greedily keep/suppress. -/
def applyNMS (boxes : List DetBox) (threshold : ℚ) : List DetBox :=
  let sorted := sortByScoreDesc boxes
  nmsLoop threshold sorted.length sorted

theorem calculateIOU_comm (a b : Box) : calculateIOU a b = calculateIOU b a := by
  simp only [calculateIOU]
  rw [max_comm a.x b.x, max_comm a.y b.y, min_comm (a.x + a.width) (b.x + b.width),
    min_comm (a.y + a.height) (b.y + b.height),
    add_comm (a.width * a.height) (b.width * b.height)]

theorem mem_of_mem_nmsLoop {t : ℚ} {b : DetBox} :
    ∀ {fuel : Nat} {l : List DetBox}, b ∈ nmsLoop t fuel l → b ∈ l := by
  intro fuel
  induction fuel with
  | zero => intro l h; simp [nmsLoop] at h
  | succ n ih =>
    intro l h
    match l with
    | [] => simp [nmsLoop] at h
    | c :: rest =>
      simp only [nmsLoop, List.mem_cons] at h
      rcases h with h | h
      · simp [h]
      · exact List.mem_cons_of_mem _ (List.mem_of_mem_filter (ih h))

theorem nmsLoop_pairwise (t : ℚ) :
    ∀ (fuel : Nat) (l : List DetBox),
      (nmsLoop t fuel l).Pairwise (fun a b => calculateIOU a.toBox b.toBox ≤ t) := by
  intro fuel
  induction fuel with
  | zero => intro l; simp [nmsLoop]
  | succ n ih =>
    intro l
    match l with
    | [] => simp [nmsLoop]
    | c :: rest =>
      simp only [nmsLoop]
      refine List.Pairwise.cons ?_ (ih _)
      intro b hb
      have hmem := mem_of_mem_nmsLoop hb
      have := List.of_mem_filter hmem
      simpa using this

/-- C1. Non-Max Suppression postcondition: any two distinct boxes in the kept
set returned by `applyNMS` have IoU (as computed by `calculateIOU`) at most
the NMS threshold. -/
theorem applyNMS_pairwise_iou_le (boxes : List DetBox) (t : ℚ) (i j : Nat)
    (a b : DetBox) (hne : i ≠ j)
    (ha : (applyNMS boxes t)[i]? = some a) (hb : (applyNMS boxes t)[j]? = some b) :
    calculateIOU a.toBox b.toBox ≤ t := by
  have hpw : (applyNMS boxes t).Pairwise (fun a b => calculateIOU a.toBox b.toBox ≤ t) :=
    nmsLoop_pairwise t _ _
  rw [List.pairwise_iff_getElem] at hpw
  have hi : i < (applyNMS boxes t).length := (List.getElem?_eq_some_iff.mp ha).1
  have hj : j < (applyNMS boxes t).length := (List.getElem?_eq_some_iff.mp hb).1
  have hav : (applyNMS boxes t)[i] = a := by
    have := List.getElem?_eq_getElem hi
    rw [ha] at this; exact (Option.some.injEq _ _).mp this.symm
  have hbv : (applyNMS boxes t)[j] = b := by
    have := List.getElem?_eq_getElem hj
    rw [hb] at this; exact (Option.some.injEq _ _).mp this.symm
  rcases Nat.lt_or_ge i j with hlt | hge
  · have := hpw i j hi hj hlt
    rwa [hav, hbv] at this
  · have hjlt : j < i := Nat.lt_of_le_of_ne hge (Ne.symm hne)
    have := hpw j i hj hi hjlt
    rw [hav, hbv] at this
    rwa [calculateIOU_comm]

/-- First demo detection for the NMS witness: unit box at the origin. -/
def nmsDemoA : DetBox := ⟨⟨0, 0, 1, 1⟩, 9/10⟩

/-- Second demo detection for the NMS witness: disjoint unit box. -/
def nmsDemoB : DetBox := ⟨⟨5, 5, 1, 1⟩, 8/10⟩

theorem applyNMS_demo_eval : applyNMS [nmsDemoA, nmsDemoB] (1/2) = [nmsDemoA, nmsDemoB] := by
  norm_num [applyNMS, sortByScoreDesc, insertByScore, nmsDemoA, nmsDemoB, nmsLoop,
    calculateIOU, List.filter]

/-- Witness for C1 at two concrete disjoint detections. -/
theorem applyNMS_pairwise_iou_le_witness :
    calculateIOU nmsDemoA.toBox nmsDemoB.toBox ≤ 1/2 :=
  applyNMS_pairwise_iou_le [nmsDemoA, nmsDemoB] (1/2) 0 1 nmsDemoA nmsDemoB
    (by decide) (by rw [applyNMS_demo_eval]; rfl) (by rw [applyNMS_demo_eval]; rfl)

/-! ### Bounding-box geometry (`src/services/faceProcessingService.js`) -/

/-- Source `expandBoundingBox(box, imageWidth, imageHeight, expandRatio)`:
grow the box by `round(dim * ratio / 2)` per axis, clamping `x`/`y` into
`[0, imageDim]` and capping `width`/`height` at
`imageDim - (box.dim0 - expand)`. -/
def expandBoundingBox (box : Box) (imageWidth imageHeight expandRatio : ℚ) : Box :=
  let expandX : ℚ := (jsRound (box.width * expandRatio / 2) : ℤ)
  let expandY : ℚ := (jsRound (box.height * expandRatio / 2) : ℤ)
  { x := clamp (box.x - expandX) 0 imageWidth
    y := clamp (box.y - expandY) 0 imageHeight
    width := min (imageWidth - (box.x - expandX)) (box.width + 2 * expandX)
    height := min (imageHeight - (box.y - expandY)) (box.height + 2 * expandY) }

/-- Source `makeSquareBoundingBox(box, imageWidth, imageHeight)`:
center-preserving square of side `round(max(width, height))`, with the
top-left corner clamped so the square stays inside the image. -/
def makeSquareBoundingBox (box : Box) (imageWidth imageHeight : ℚ) : Box :=
  let centerX := box.x + box.width / 2
  let centerY := box.y + box.height / 2
  let side : ℚ := (jsRound (max box.width box.height) : ℤ)
  let x0 : ℚ := (jsRound (centerX - side / 2) : ℤ)
  let y0 : ℚ := (jsRound (centerY - side / 2) : ℤ)
  let x1 := clamp x0 0 (imageWidth - side)
  let y1 := clamp y0 0 (imageHeight - side)
  { x := max 0 x1
    y := max 0 y1
    width := min side imageWidth
    height := min side imageHeight }

/-- The `config.faceRecognition` object from `src/config/index.js`.
That object has no `minPixelSize` entry, so the JS property access
`cfg.minPixelSize` inside `processBoundingBox` yields `undefined`; the field
is therefore modelled as an `Option`, `none` in the default configuration. -/
structure RecognitionCfg where
  faceExpandRatio : ℚ
  maxExpandRatio : ℚ
  useSquareCrop : Bool
  minPixelSize : Option ℚ

/-- Default configuration values from `src/config/index.js`
(`FACE_EXPAND_RATIO` defaults to `0.10`, `maxExpandRatio` is `0.20`,
`SQUARE_CROP` defaults to `true`, and `minPixelSize` is absent). -/
def defaultRecognitionCfg : RecognitionCfg :=
  { faceExpandRatio := 1/10, maxExpandRatio := 1/5, useSquareCrop := true, minPixelSize := none }

/-- JavaScript `<` where the right operand may be `undefined`: any comparison
with `undefined` is `false` (it coerces to `NaN`). -/
def jsLtUndef (a : ℚ) (b : Option ℚ) : Bool :=
  match b with
  | none => false
  | some q => decide (a < q)

/-- Error conditions raised by the face pipeline (`src/constants/errors.js`). -/
inductive AppError where
  | noFaceDetected
  | faceTooSmall
deriving DecidableEq, Repr

/-- Source `processBoundingBox(box, imageWidth, imageHeight)`: expand with
ratio `min(maxExpandRatio, faceExpandRatio)`, optionally square, then check
the minimum-size condition (against the absent `cfg.minPixelSize`). -/
def processBoundingBox (cfg : RecognitionCfg) (box : Box) (imageWidth imageHeight : ℚ) :
    Except AppError Box :=
  let expandRatio := min cfg.maxExpandRatio cfg.faceExpandRatio
  let expanded := expandBoundingBox box imageWidth imageHeight expandRatio
  let processed :=
    if cfg.useSquareCrop then makeSquareBoundingBox expanded imageWidth imageHeight else expanded
  if jsLtUndef processed.width cfg.minPixelSize || jsLtUndef processed.height cfg.minPixelSize then
    .error .faceTooSmall
  else
    .ok processed

/-- C2 failing input: the box covering the whole 100×100 image. -/
def fullImageBox : Box := ⟨0, 0, 100, 100⟩

/-- C2. The expanded box escapes the image: for the in-bounds input box
`(0,0,100,100)` in a 100×100 image with expand ratio `0.2`,
`expandBoundingBox` returns `x = 0`, `width = 110`, so `x + width = 110`
exceeds the image width, refuting the clamped-bounding-box invariant. -/
theorem expandBoundingBox_escapes_image :
    (0 ≤ fullImageBox.x ∧ 0 ≤ fullImageBox.y ∧
      fullImageBox.x + fullImageBox.width ≤ 100 ∧
      fullImageBox.y + fullImageBox.height ≤ 100 ∧
      0 < fullImageBox.width ∧ 0 < fullImageBox.height ∧ (0:ℚ) ≤ 1/5) ∧
    (expandBoundingBox fullImageBox 100 100 (1/5)).x +
        (expandBoundingBox fullImageBox 100 100 (1/5)).width = 110 ∧
    (100 : ℚ) < (expandBoundingBox fullImageBox 100 100 (1/5)).x +
        (expandBoundingBox fullImageBox 100 100 (1/5)).width := by
  norm_num [expandBoundingBox, fullImageBox, clamp, jsRound]

/-- C9 failing input: a 10×10 pixel box well inside a 1000×1000 image. -/
def smallFaceBox : Box := ⟨500, 500, 10, 10⟩

/-- C9. `processBoundingBox` can never raise the face-too-small error under
the default configuration, because `config.faceRecognition` has no
`minPixelSize` field: on the 10×10 input it returns the processed 12×12 box
(below the intended 20px minimum) instead of failing. -/
theorem processBoundingBox_never_fails_small :
    (∀ (box : Box) (imageWidth imageHeight : ℚ), ∃ b,
      processBoundingBox defaultRecognitionCfg box imageWidth imageHeight = .ok b) ∧
    processBoundingBox defaultRecognitionCfg smallFaceBox 1000 1000 = .ok ⟨499, 499, 12, 12⟩ ∧
    (12 : ℚ) < 20 := by
  refine ⟨fun box imageWidth imageHeight => ?_, ?_, by norm_num⟩
  · refine ⟨makeSquareBoundingBox (expandBoundingBox box imageWidth imageHeight
      (min defaultRecognitionCfg.maxExpandRatio defaultRecognitionCfg.faceExpandRatio))
      imageWidth imageHeight, ?_⟩
    simp [processBoundingBox, jsLtUndef, defaultRecognitionCfg]
  · norm_num [processBoundingBox, defaultRecognitionCfg, jsLtUndef, expandBoundingBox,
      makeSquareBoundingBox, smallFaceBox, clamp, jsRound]

/-! ### Face candidate selector (`selectBestFace`, `detectAndValidateFace`) -/

/-- The `config.faceDetection` fields used by the selector
(`minPixelSize = 20`, `edgeMarginRatio = 0.05`, aspect ratio in `[0.6, 1.8]`). -/
structure DetectionCfg where
  minPixelSize : ℚ
  edgeMarginRatio : ℚ
  aspectRatioMin : ℚ
  aspectRatioMax : ℚ

/-- Default face-detection configuration from `src/config/index.js`. -/
def defaultDetectionCfg : DetectionCfg := ⟨20, 1/20, 3/5, 9/5⟩

/-- The `config.faceScoring` weights (`0.65 / 0.25 / 0.10`). -/
structure ScoringWeights where
  detectionConfidence : ℚ
  centrality : ℚ
  sizeRatio : ℚ

/-- Default scoring weights from `src/config/index.js`. -/
def defaultScoringWeights : ScoringWeights := ⟨13/20, 1/4, 1/10⟩

/-- The per-box conversion in `selectBestFace`: normalized coordinates to
pixels (`Math.max(0, Math.round(...))`, sizes at least `1`), then clamp the
right/bottom edges to the image bounds. -/
def toPixelBox (imageWidth imageHeight : ℚ) (box : DetBox) : DetBox :=
  let x : ℚ := max 0 (jsRound (box.x * imageWidth) : ℤ)
  let y : ℚ := max 0 (jsRound (box.y * imageHeight) : ℤ)
  let w0 : ℚ := max 1 (jsRound (box.width * imageWidth) : ℤ)
  let h0 : ℚ := max 1 (jsRound (box.height * imageHeight) : ℤ)
  let width := if imageWidth < x + w0 then imageWidth - x else w0
  let height := if imageHeight < y + h0 then imageHeight - y else h0
  ⟨⟨x, y, width, height⟩, box.score⟩

/-- The `.filter` predicate in `selectBestFace`: size, edge-margin and
aspect-ratio filters, all of which must pass. -/
def passesFilters (cfg : DetectionCfg) (imageWidth imageHeight : ℚ) (box : DetBox) : Bool :=
  let minSize := max cfg.minPixelSize (min imageWidth imageHeight * (8/100))
  let maxSize := min imageWidth imageHeight * (65/100)
  let edgeX := imageWidth * cfg.edgeMarginRatio
  let edgeY := imageHeight * cfg.edgeMarginRatio
  let aspectRatio := box.width / box.height
  decide (minSize ≤ box.width ∧ minSize ≤ box.height ∧
    box.width ≤ maxSize ∧ box.height ≤ maxSize ∧
    edgeX ≤ box.x ∧ edgeY ≤ box.y ∧
    box.x + box.width ≤ imageWidth - edgeX ∧ box.y + box.height ≤ imageHeight - edgeY ∧
    cfg.aspectRatioMin ≤ aspectRatio ∧ aspectRatio ≤ cfg.aspectRatioMax)

/-- A surviving candidate together with its composite score. -/
structure ScoredBox extends DetBox where
  compositeScore : ℝ

/-- The composite-score computation in `selectBestFace`:
`w_conf * score + w_center * centrality + w_size * sizeRatio`, where
`centrality = 1 - min(1, sqrt(dx^2 + dy^2))`. -/
noncomputable def scoreBox (weights : ScoringWeights) (imageWidth imageHeight : ℚ)
    (box : DetBox) : ScoredBox :=
  let centerX := box.x + box.width / 2
  let centerY := box.y + box.height / 2
  let dx : ℝ := |(centerX : ℝ) - (imageWidth : ℝ) / 2| / ((imageWidth : ℝ) / 2)
  let dy : ℝ := |(centerY : ℝ) - (imageHeight : ℝ) / 2| / ((imageHeight : ℝ) / 2)
  let centrality : ℝ := 1 - min 1 (Real.sqrt (dx * dx + dy * dy))
  let sizeRatio : ℝ :=
    min 1 (((box.width * box.height : ℚ) : ℝ) / ((imageWidth * imageHeight : ℚ) : ℝ))
  { toDetBox := box
    compositeScore := (weights.detectionConfidence : ℝ) * (box.score : ℝ) +
      (weights.centrality : ℝ) * centrality + (weights.sizeRatio : ℝ) * sizeRatio }

open Classical in
/-- Stable descending insertion by composite score, modelling the JS stable
`candidates.sort((a, b) => b.compositeScore - a.compositeScore)`. -/
noncomputable def insertByCompositeDesc (b : ScoredBox) : List ScoredBox → List ScoredBox
  | [] => [b]
  | c :: cs =>
      if b.compositeScore < c.compositeScore then c :: insertByCompositeDesc b cs
      else b :: c :: cs

/-- Stable sort by composite score descending. -/
noncomputable def sortByCompositeDesc (l : List ScoredBox) : List ScoredBox :=
  l.foldr insertByCompositeDesc []

/-- Source `selectBestFace(boxes, imageWidth, imageHeight)`: pixel
conversion, filtering, scoring, then the best-scored candidate (or `none`). -/
noncomputable def selectBestFace (boxes : List DetBox) (imageWidth imageHeight : ℚ) :
    Option ScoredBox :=
  if boxes.isEmpty then none
  else
    let candidates := ((boxes.map (toPixelBox imageWidth imageHeight)).filter
        (passesFilters defaultDetectionCfg imageWidth imageHeight)).map
        (scoreBox defaultScoringWeights imageWidth imageHeight)
    (sortByCompositeDesc candidates).head?

/-- The part of source `detectAndValidateFace` that follows detector
inference: empty detections or a filtered-out selection raise
`NO_FACE_DETECTED`; otherwise the selected box is processed. -/
noncomputable def detectAndValidateFace (boxes : List DetBox) (imageWidth imageHeight : ℚ) :
    Except AppError Box :=
  if boxes.isEmpty then .error .noFaceDetected
  else
    match selectBestFace boxes imageWidth imageHeight with
    | none => .error .noFaceDetected
    | some best =>
        processBoundingBox defaultRecognitionCfg best.toDetBox.toBox imageWidth imageHeight

/-- C8 demo candidate: a normalized box that maps to 10×10 pixels in a
1000×1000 image. -/
def tinyCandidate : DetBox := ⟨⟨45/100, 45/100, 1/100, 1/100⟩, 9/10⟩

/-- C8. If every candidate fails the selector's filters, `selectBestFace`
returns `none` and `detectAndValidateFace` raises `NO_FACE_DETECTED`; in
particular this holds for the single 10×10px candidate in a 1000×1000 image,
which fails the `max(minPixelSize, 0.08 * min(imgW, imgH)) = 80` minimum-size
filter. -/
theorem selectBestFace_none_when_all_filtered :
    (∀ (boxes : List DetBox) (imageWidth imageHeight : ℚ),
      (boxes.map (toPixelBox imageWidth imageHeight)).filter
          (passesFilters defaultDetectionCfg imageWidth imageHeight) = [] →
      selectBestFace boxes imageWidth imageHeight = none ∧
      detectAndValidateFace boxes imageWidth imageHeight = .error .noFaceDetected) ∧
    selectBestFace [tinyCandidate] 1000 1000 = none ∧
    detectAndValidateFace [tinyCandidate] 1000 1000 = .error .noFaceDetected := by
  have hgen : ∀ (boxes : List DetBox) (imageWidth imageHeight : ℚ),
      (boxes.map (toPixelBox imageWidth imageHeight)).filter
          (passesFilters defaultDetectionCfg imageWidth imageHeight) = [] →
      selectBestFace boxes imageWidth imageHeight = none ∧
      detectAndValidateFace boxes imageWidth imageHeight = .error .noFaceDetected := by
    intro boxes imageWidth imageHeight hf
    by_cases hb : boxes.isEmpty
    · constructor
      · simp [selectBestFace, hb]
      · simp [detectAndValidateFace, hb]
    · have hsel : selectBestFace boxes imageWidth imageHeight = none := by
        simp [selectBestFace, hb, hf, sortByCompositeDesc]
      refine ⟨hsel, ?_⟩
      simp [detectAndValidateFace, hb, hsel]
  have hfilter : ([tinyCandidate].map (toPixelBox 1000 1000)).filter
      (passesFilters defaultDetectionCfg 1000 1000) = [] := by
    norm_num [toPixelBox, passesFilters, defaultDetectionCfg, tinyCandidate, jsRound,
      List.filter]
  exact ⟨hgen, (hgen [tinyCandidate] 1000 1000 hfilter).1,
    (hgen [tinyCandidate] 1000 1000 hfilter).2⟩

/-- Witness for C8's general clause at the empty detection list. -/
theorem selectBestFace_none_when_all_filtered_witness :
    selectBestFace [] 5 5 = none ∧ detectAndValidateFace [] 5 5 = .error .noFaceDetected :=
  selectBestFace_none_when_all_filtered.1 [] 5 5 (by simp)

/-! ### Vector math (`src/utils/math.js`) -/

/-- The `normA += vectorA[i] * vectorA[i]` accumulation in
`cosineSimilarity`, and the `norm += val * val` loop in `l2Normalize`. -/
def sumSq : List ℝ → ℝ
  | [] => 0
  | v :: vs => v * v + sumSq vs

/-- The `dotProduct += vectorA[i] * vectorB[i]` accumulation in
`cosineSimilarity` (the loop runs over the common length; the source only
reaches it when the lengths are equal). -/
def dotProduct : List ℝ → List ℝ → ℝ
  | a :: as, b :: bs => a * b + dotProduct as bs
  | _, _ => 0

open Classical in
/-- Source `cosineSimilarity(vectorA, vectorB)`: `null` on length mismatch,
`0` when either norm is zero, else `dot / (sqrt(normA) * sqrt(normB))`. -/
noncomputable def cosineSimilarity (vectorA vectorB : List ℝ) : Option ℝ :=
  if vectorA.length ≠ vectorB.length then none
  else
    let dot := dotProduct vectorA vectorB
    let normA := sumSq vectorA
    let normB := sumSq vectorB
    if normA = 0 ∨ normB = 0 then some 0
    else some (dot / (Real.sqrt normA * Real.sqrt normB))

open Classical in
/-- Source `l2Normalize(vector)`: `norm = Math.sqrt(sum) || 1.0` (the `||`
replaces a zero norm by `1`), then divide every entry by `norm`. -/
noncomputable def l2Normalize (vector : List ℝ) : List ℝ :=
  let n0 := Real.sqrt (sumSq vector)
  let norm := if n0 = 0 then 1 else n0
  vector.map fun v => v / norm

/-- The TTA averaging loop in `generateEmbedding`:
`embedding[i] = 0.5 * (embedding[i] + flippedEmbedding[i])` for indices below
both lengths, leaving any tail of `embedding` unchanged. -/
def averageTTA (embedding flipped : List ℝ) : List ℝ :=
  (List.zipWith (fun x y => 0.5 * (x + y)) embedding flipped) ++ embedding.drop flipped.length

/-- The vector that `generateEmbedding` normalizes: the averaged pair when
TTA flip is enabled, the raw embedding otherwise. -/
def preEmbedding (embedding flipped : List ℝ) (useTTAFlip : Bool) : List ℝ :=
  if useTTAFlip then averageTTA embedding flipped else embedding

/-- The embedding postprocessor of source `generateEmbedding` (the part after
inference): optional TTA averaging followed by L2 normalization. -/
noncomputable def generateEmbedding (embedding flipped : List ℝ) (useTTAFlip : Bool) : List ℝ :=
  l2Normalize (preEmbedding embedding flipped useTTAFlip)

theorem sumSq_nonneg (v : List ℝ) : 0 ≤ sumSq v := by
  induction v with
  | nil => simp [sumSq]
  | cons x xs ih => exact add_nonneg (mul_self_nonneg x) ih

theorem dotProduct_comm (a b : List ℝ) : dotProduct a b = dotProduct b a := by
  induction a generalizing b with
  | nil => cases b <;> simp [dotProduct]
  | cons x xs ih =>
    cases b with
    | nil => simp [dotProduct]
    | cons y ys => simp [dotProduct, ih, mul_comm]

theorem le_of_sq_le_sq (u v : ℝ) (hu : 0 ≤ u) (h : v ^ 2 ≤ u ^ 2) : v ≤ u := by
  have hs := Real.sqrt_le_sqrt h
  rw [Real.sqrt_sq_eq_abs, Real.sqrt_sq_eq_abs] at hs
  calc v ≤ |v| := le_abs_self v
    _ ≤ |u| := hs
    _ = u := abs_of_nonneg hu

/-- Cauchy–Schwarz for the list dot product. -/
theorem dotProduct_sq_le (a b : List ℝ) :
    dotProduct a b ^ 2 ≤ sumSq a * sumSq b := by
  induction a generalizing b with
  | nil =>
    cases b <;>
      simpa [dotProduct] using mul_nonneg (sumSq_nonneg _) (sumSq_nonneg _)
  | cons x xs ih =>
    cases b with
    | nil => simp [dotProduct, sumSq]
    | cons y ys =>
      have hA := sumSq_nonneg xs
      have hB := sumSq_nonneg ys
      have hd := ih ys
      simp only [dotProduct, sumSq]
      have h1 : (2 * x * y * dotProduct xs ys) ^ 2 ≤ (x * x * sumSq ys + sumSq xs * (y * y)) ^ 2 := by
        nlinarith [sq_nonneg (x * x * sumSq ys - sumSq xs * (y * y)),
          mul_nonneg (sq_nonneg (x * y)) (sub_nonneg.mpr hd)]
      have h2 : 2 * x * y * dotProduct xs ys ≤ x * x * sumSq ys + sumSq xs * (y * y) :=
        le_of_sq_le_sq _ _
          (add_nonneg (mul_nonneg (mul_self_nonneg x) hB) (mul_nonneg hA (mul_self_nonneg y))) h1
      nlinarith [hd, h2]

/-- C3. For equal-length vectors with nonzero norms, `cosineSimilarity` is
symmetric and its value lies in `[-1, 1]`. -/
theorem cosineSimilarity_symm_bounded (a b : List ℝ)
    (hlen : a.length = b.length) (ha : sumSq a ≠ 0) (hb : sumSq b ≠ 0) :
    cosineSimilarity a b = cosineSimilarity b a ∧
    ∃ s, cosineSimilarity a b = some s ∧ -1 ≤ s ∧ s ≤ 1 := by
  have hA : 0 < sumSq a := lt_of_le_of_ne (sumSq_nonneg a) (Ne.symm ha)
  have hB : 0 < sumSq b := lt_of_le_of_ne (sumSq_nonneg b) (Ne.symm hb)
  have hval : cosineSimilarity a b =
      some (dotProduct a b / (Real.sqrt (sumSq a) * Real.sqrt (sumSq b))) := by
    simp [cosineSimilarity, hlen, ha, hb]
  have hval' : cosineSimilarity b a =
      some (dotProduct b a / (Real.sqrt (sumSq b) * Real.sqrt (sumSq a))) := by
    simp [cosineSimilarity, hlen.symm, ha, hb]
  have hpos : 0 < Real.sqrt (sumSq a) * Real.sqrt (sumSq b) :=
    mul_pos (Real.sqrt_pos.mpr hA) (Real.sqrt_pos.mpr hB)
  refine ⟨?_, dotProduct a b / (Real.sqrt (sumSq a) * Real.sqrt (sumSq b)), hval, ?_⟩
  · rw [hval, hval', dotProduct_comm, mul_comm]
  · have habs : |dotProduct a b| ≤ Real.sqrt (sumSq a) * Real.sqrt (sumSq b) := by
      have h1 : |dotProduct a b| = Real.sqrt (dotProduct a b ^ 2) :=
        (Real.sqrt_sq_eq_abs _).symm
      rw [h1, ← Real.sqrt_mul (sumSq_nonneg a)]
      exact Real.sqrt_le_sqrt (dotProduct_sq_le a b)
    have : |dotProduct a b / (Real.sqrt (sumSq a) * Real.sqrt (sumSq b))| ≤ 1 := by
      rw [abs_div, abs_of_pos hpos]
      exact (div_le_one hpos).mpr habs
    exact abs_le.mp this

/-- Witness for C3 at two concrete orthogonal vectors. -/
theorem cosineSimilarity_symm_bounded_witness :
    cosineSimilarity [(1:ℝ), 0] [0, 1] = cosineSimilarity [0, 1] [(1:ℝ), 0] ∧
    ∃ s, cosineSimilarity [(1:ℝ), 0] [0, 1] = some s ∧ -1 ≤ s ∧ s ≤ 1 :=
  cosineSimilarity_symm_bounded [1, 0] [0, 1] (by simp)
    (by norm_num [sumSq]) (by norm_num [sumSq])

/-- C4 counterexample: two empty vectors give `0`, not the null result, so
"null when either vector is empty" fails at `a = b = []`. -/
theorem cosineSimilarity_empty_not_none :
    cosineSimilarity ([] : List ℝ) [] = some 0 ∧
    (cosineSimilarity ([] : List ℝ) []).isSome = true := by
  have h : cosineSimilarity ([] : List ℝ) [] = some 0 := by
    simp [cosineSimilarity, sumSq]
  exact ⟨h, by rw [h]; rfl⟩

/-- C4 (amended). `cosineSimilarity` is `null` exactly when the lengths
differ (an empty vector alone does not trigger the null result), and it
returns `0` whenever the lengths match and either norm is zero. -/
theorem cosineSimilarity_none_iff (a b : List ℝ) :
    (cosineSimilarity a b = none ↔ a.length ≠ b.length) ∧
    (a.length = b.length → sumSq a = 0 ∨ sumSq b = 0 → cosineSimilarity a b = some 0) := by
  by_cases hl : a.length = b.length
  · refine ⟨?_, fun _ hz => by simp [cosineSimilarity, hl, hz]⟩
    by_cases hz : sumSq a = 0 ∨ sumSq b = 0
    · simp [cosineSimilarity, hl, hz]
    · simp [cosineSimilarity, hl, hz]
  · exact ⟨by simp [cosineSimilarity, hl], fun h => absurd h hl⟩

/-- Witness for C4 at a concrete zero vector. -/
theorem cosineSimilarity_none_iff_witness : cosineSimilarity [(0:ℝ)] [5] = some 0 :=
  (cosineSimilarity_none_iff [0] [5]).2 (by simp) (Or.inl (by norm_num [sumSq]))

theorem sumSq_map_div (v : List ℝ) (c : ℝ) :
    sumSq (v.map fun x => x / c) = sumSq v / (c * c) := by
  induction v with
  | nil => simp [sumSq]
  | cons x xs ih =>
    simp only [List.map_cons, sumSq, ih]
    rw [div_mul_div_comm, div_add_div_same]

/-- C5. Whenever the vector entering normalization (the raw embedding, or the
TTA average when flip augmentation is on) is nonzero, the embedding produced
by `generateEmbedding` has L2 norm within `1e-4` of `1`. -/
theorem generateEmbedding_unit_norm (embedding flipped : List ℝ) (useTTAFlip : Bool)
    (h : sumSq (preEmbedding embedding flipped useTTAFlip) ≠ 0) :
    |Real.sqrt (sumSq (generateEmbedding embedding flipped useTTAFlip)) - 1| ≤ 1/10000 := by
  set p := preEmbedding embedding flipped useTTAFlip with hp
  have hA : 0 < sumSq p := lt_of_le_of_ne (sumSq_nonneg p) (Ne.symm h)
  have hs : Real.sqrt (sumSq p) ≠ 0 := ne_of_gt (Real.sqrt_pos.mpr hA)
  have hnorm : generateEmbedding embedding flipped useTTAFlip =
      p.map fun v => v / Real.sqrt (sumSq p) := by
    simp [generateEmbedding, l2Normalize, ← hp, hs]
  rw [hnorm, sumSq_map_div, Real.mul_self_sqrt hA.le, div_self (ne_of_gt hA),
    Real.sqrt_one]
  norm_num

/-- Witness for C5 at a concrete one-entry raw embedding. -/
theorem generateEmbedding_unit_norm_witness :
    |Real.sqrt (sumSq (generateEmbedding [(1:ℝ)] [] false)) - 1| ≤ 1/10000 :=
  generateEmbedding_unit_norm [1] [] false (by norm_num [preEmbedding, sumSq])

/-! ### Horizontal flip (`src/utils/image.js`) -/

/-- The index permutation realized by `flipHorizontal` on a flat NHWC array:
the output entry at flat index `j = (y*width + x)*3 + c` is the input entry
of the mirrored column, flat index `(y*width + (width-1-x))*3 + c`. -/
def flipIndex (width j : Nat) : Nat :=
  let c := j % 3
  let t := j / 3
  let x := t % width
  let y := t / width
  (y * width + (width - 1 - x)) * 3 + c

/-- Source `flipHorizontal(nhwcData, height, width)`: a fresh array of length
`height*width*3` where every destination index receives the source value at
the column-mirrored index (the double loop writes each destination exactly
once). -/
def flipHorizontal (nhwcData : List ℚ) (height width : Nat) : List ℚ :=
  (List.range (height * width * 3)).map fun j => nhwcData.getD (flipIndex width j) 0

theorem flipIndex_spec (height width j : Nat) (hj : j < height * width * 3) :
    flipIndex width j < height * width * 3 ∧ flipIndex width (flipIndex width j) = j := by
  have hw : 0 < width := by
    rcases Nat.eq_zero_or_pos width with h0 | h0
    · subst h0; simp at hj
    · exact h0
  set c := j % 3 with hc
  set t := j / 3 with ht
  set x := t % width with hx
  set y := t / width with hy
  have hc3 : c < 3 := Nat.mod_lt _ (by norm_num)
  have hxw : x < width := Nat.mod_lt _ hw
  have hjt : t * 3 + c = j := by omega
  have htw : width * y + x = t := Nat.div_add_mod t width
  have htlt : t < height * width := by
    rw [ht]
    exact Nat.div_lt_of_lt_mul (by rw [Nat.mul_comm]; exact hj)
  have hylt : y < height := by
    rw [hy]
    exact Nat.div_lt_of_lt_mul (by rw [Nat.mul_comm]; exact htlt)
  have hfj : flipIndex width j = (y * width + (width - 1 - x)) * 3 + c := rfl
  set x2 := width - 1 - x with hx2def
  have hx2 : x2 < width := by omega
  have hub : y * width + x2 < height * width := by
    have h1 : y * width + x2 < (y + 1) * width := by
      have : (y + 1) * width = y * width + width := by ring
      omega
    have h2 : (y + 1) * width ≤ height * width := Nat.mul_le_mul_right width hylt
    omega
  constructor
  · rw [hfj]
    have hgen : ∀ u U : Nat, u < U → c < 3 → u * 3 + c < U * 3 := by intro u U h1 h2; omega
    exact hgen _ _ hub hc3
  · rw [hfj]
    have hmod3 : ((y * width + x2) * 3 + c) % 3 = c := by omega
    have hdiv3 : ((y * width + x2) * 3 + c) / 3 = y * width + x2 := by omega
    have hmodw : (y * width + x2) % width = x2 := by
      rw [Nat.add_comm, Nat.add_mul_mod_self_right]
      exact Nat.mod_eq_of_lt hx2
    have hdivw : (y * width + x2) / width = y := by
      rw [Nat.add_comm, Nat.add_mul_div_right x2 y hw, Nat.div_eq_of_lt hx2]
      omega
    show (((((y * width + x2) * 3 + c) / 3) / width) * width +
        (width - 1 - (((y * width + x2) * 3 + c) / 3) % width)) * 3 +
        ((y * width + x2) * 3 + c) % 3 = j
    rw [hmod3, hdiv3, hmodw, hdivw]
    have hxback : width - 1 - x2 = x := by omega
    rw [hxback]
    have : y * width + x = t := by rw [← htw]; ring
    rw [this, hjt]

/-- C10. `flipHorizontal` is an involution: flipping an NHWC array of length
`height*width*3` twice returns the original array. -/
theorem flipHorizontal_involutive (height width : Nat) (nhwcData : List ℚ)
    (h : nhwcData.length = height * width * 3) :
    flipHorizontal (flipHorizontal nhwcData height width) height width = nhwcData := by
  apply List.ext_getElem
  · simp [flipHorizontal, h]
  · intro j hj1 hj2
    have hj : j < height * width * 3 := by
      simpa [flipHorizontal] using hj1
    obtain ⟨hb, hinv⟩ := flipIndex_spec height width j hj
    have houter : (flipHorizontal (flipHorizontal nhwcData height width) height width)[j] =
        (flipHorizontal nhwcData height width).getD (flipIndex width j) 0 := by
      simp [flipHorizontal]
    have hlen1 : (flipHorizontal nhwcData height width).length = height * width * 3 := by
      simp [flipHorizontal]
    have hinner : (flipHorizontal nhwcData height width).getD (flipIndex width j) 0 =
        nhwcData.getD (flipIndex width (flipIndex width j)) 0 := by
      rw [List.getD_eq_getElem _ _ (by rw [hlen1]; exact hb)]
      simp [flipHorizontal]
    rw [houter, hinner, hinv, List.getD_eq_getElem _ _ hj2]

/-- Witness for C10 at a concrete 1×2 RGB array. -/
theorem flipHorizontal_involutive_witness :
    flipHorizontal (flipHorizontal [1, 2, 3, 4, 5, 6] 1 2) 1 2 = [1, 2, 3, 4, 5, 6] :=
  flipHorizontal_involutive 1 2 [1, 2, 3, 4, 5, 6] (by simp)

/-! ### Anchor generation (`_generateAnchors` in `src/services/faceDetectionService.js`) -/

/-- A BlazeFace anchor `{cx, cy, w, h}` in normalized model-input space. -/
structure Anchor where
  cx : ℚ
  cy : ℚ
  w : ℚ
  h : ℚ
deriving DecidableEq, Repr

/-- A feature-map spec `{size, stride, anchorsPerCell}`. -/
structure FeatureMap where
  size : Nat
  stride : ℚ
  anchorsPerCell : Nat

/-- The fixed feature maps of `_generateAnchors`. -/
def featureMaps : List FeatureMap := [⟨16, 8, 2⟩, ⟨8, 16, 6⟩]

/-- The anchor pushed for grid cell `(x, y)` of feature map `fm` (every
anchor slot of a cell receives the same values). -/
def anchorAt (fm : FeatureMap) (targetSize : ℚ) (y x : Nat) : Anchor :=
  { cx := ((x : ℚ) + 1/2) * fm.stride / targetSize
    cy := ((y : ℚ) + 1/2) * fm.stride / targetSize
    w := fm.stride / targetSize
    h := fm.stride / targetSize }

/-- The three nested loops of `_generateAnchors` for one feature map: rows,
then columns, then `anchorsPerCell` identical pushes. -/
def featureMapAnchors (fm : FeatureMap) (targetSize : ℚ) : List Anchor :=
  (List.range fm.size).flatMap fun y =>
    (List.range fm.size).flatMap fun x =>
      List.replicate fm.anchorsPerCell (anchorAt fm targetSize y x)

/-- Source `_generateAnchors()`: anchors of each feature map, in order. -/
def generateAnchors (targetSize : ℚ) : List Anchor :=
  featureMaps.flatMap fun fm => featureMapAnchors fm targetSize

theorem length_flatMap_const {α : Type} (f : Nat → List α) (k : Nat)
    (hk : ∀ i, (f i).length = k) (n : Nat) :
    ((List.range n).flatMap f).length = n * k := by
  induction n with
  | zero => simp
  | succ m ih =>
    rw [List.range_succ]
    simp only [List.flatMap_append, List.flatMap_cons, List.flatMap_nil, List.length_append]
    rw [ih]
    simp [hk, Nat.succ_mul]

theorem getElem?_flatMap_const {α : Type} (f : Nat → List α) (k : Nat)
    (hk : ∀ i, (f i).length = k) :
    ∀ (n y r : Nat), y < n → r < k →
      ((List.range n).flatMap f)[y * k + r]? = (f y)[r]? := by
  intro n
  induction n with
  | zero => intro y r hy _; omega
  | succ m ih =>
    intro y r hy hr
    rw [List.range_succ, List.flatMap_append]
    rcases Nat.lt_or_ge y m with hym | hym
    · rw [List.getElem?_append, if_pos ?_]
      · exact ih y r hym hr
      · rw [length_flatMap_const f k hk m]
        have h1 : y * k + r < (y + 1) * k := by
          have : (y + 1) * k = y * k + k := by ring
          omega
        have h2 : (y + 1) * k ≤ m * k := Nat.mul_le_mul_right k hym
        omega
    · have hy' : y = m := by omega
      subst hy'
      rw [List.getElem?_append_right (by rw [length_flatMap_const f k hk y]; omega)]
      rw [length_flatMap_const f k hk y]
      simp only [List.flatMap_cons, List.flatMap_nil, List.append_nil]
      congr 1
      omega

theorem featureMapAnchors_length (fm : FeatureMap) (targetSize : ℚ) :
    (featureMapAnchors fm targetSize).length = fm.size * (fm.size * fm.anchorsPerCell) := by
  unfold featureMapAnchors
  exact length_flatMap_const _ _
    (fun _ => length_flatMap_const _ _ (fun _ => List.length_replicate _ _) _) _

theorem featureMapAnchors_getElem? (fm : FeatureMap) (targetSize : ℚ) (y x a : Nat)
    (hy : y < fm.size) (hx : x < fm.size) (ha : a < fm.anchorsPerCell) :
    (featureMapAnchors fm targetSize)[y * (fm.size * fm.anchorsPerCell) +
        (x * fm.anchorsPerCell + a)]? = some (anchorAt fm targetSize y x) := by
  unfold featureMapAnchors
  have hcell : x * fm.anchorsPerCell + a < fm.size * fm.anchorsPerCell := by
    have h1 : x * fm.anchorsPerCell + a < (x + 1) * fm.anchorsPerCell := by
      have : (x + 1) * fm.anchorsPerCell = x * fm.anchorsPerCell + fm.anchorsPerCell := by ring
      omega
    have h2 : (x + 1) * fm.anchorsPerCell ≤ fm.size * fm.anchorsPerCell :=
      Nat.mul_le_mul_right _ hx
    omega
  rw [getElem?_flatMap_const _ _
    (fun _ => length_flatMap_const _ _ (fun _ => List.length_replicate _ _) _) _ y _ hy hcell]
  rw [getElem?_flatMap_const _ _ (fun _ => List.length_replicate _ _) _ x a hx ha]
  rw [List.getElem?_replicate, if_pos ha]

/-- C6. With the fixed feature maps `[{16, 8, 2}, {8, 16, 6}]` the anchor
generator returns exactly `896` anchors; slot `a` of cell `(x, y)` of the
first map sits at index `y*32 + x*2 + a` and the second map follows at
offset `512` with row stride `48`, every anchor being
`{cx = (x+0.5)*stride/targetSize, cy = (y+0.5)*stride/targetSize,
w = h = stride/targetSize}`. -/
theorem generateAnchors_spec (targetSize : ℚ) :
    (generateAnchors targetSize).length = 896 ∧
    (∀ y x a : Nat, y < 16 → x < 16 → a < 2 →
      (generateAnchors targetSize)[y * 32 + x * 2 + a]? =
        some { cx := ((x : ℚ) + 1/2) * 8 / targetSize
               cy := ((y : ℚ) + 1/2) * 8 / targetSize
               w := 8 / targetSize, h := 8 / targetSize }) ∧
    (∀ y x a : Nat, y < 8 → x < 8 → a < 6 →
      (generateAnchors targetSize)[512 + (y * 48 + x * 6 + a)]? =
        some { cx := ((x : ℚ) + 1/2) * 16 / targetSize
               cy := ((y : ℚ) + 1/2) * 16 / targetSize
               w := 16 / targetSize, h := 16 / targetSize }) := by
  have hfm : generateAnchors targetSize =
      featureMapAnchors ⟨16, 8, 2⟩ targetSize ++ featureMapAnchors ⟨8, 16, 6⟩ targetSize := by
    simp [generateAnchors, featureMaps]
  have hlen1 : (featureMapAnchors ⟨16, 8, 2⟩ targetSize).length = 512 :=
    featureMapAnchors_length _ _
  have hlen2 : (featureMapAnchors ⟨8, 16, 6⟩ targetSize).length = 384 :=
    featureMapAnchors_length _ _
  refine ⟨?_, ?_, ?_⟩
  · rw [hfm, List.length_append, hlen1, hlen2]
  · intro y x a hy hx ha
    rw [hfm, List.getElem?_append, if_pos (by rw [hlen1]; omega)]
    have hidx : y * 32 + x * 2 + a = y * (16 * 2) + (x * 2 + a) := by omega
    rw [hidx, featureMapAnchors_getElem? ⟨16, 8, 2⟩ targetSize y x a hy hx ha]
    simp [anchorAt]
  · intro y x a hy hx ha
    rw [hfm, List.getElem?_append_right (by rw [hlen1]; omega), hlen1]
    have hidx : 512 + (y * 48 + x * 6 + a) - 512 = y * (8 * 6) + (x * 6 + a) := by omega
    rw [hidx, featureMapAnchors_getElem? ⟨8, 16, 6⟩ targetSize y x a hy hx ha]
    simp [anchorAt]

/-- Witness for C6: the first and last anchors at `targetSize = 128`. -/
theorem generateAnchors_spec_witness :
    (generateAnchors 128).length = 896 ∧
    (generateAnchors 128)[0]? =
      some { cx := ((0 : ℚ) + 1/2) * 8 / 128, cy := ((0 : ℚ) + 1/2) * 8 / 128
             w := 8 / 128, h := 8 / 128 } ∧
    (generateAnchors 128)[512 + (7 * 48 + 7 * 6 + 5)]? =
      some { cx := ((7 : ℚ) + 1/2) * 16 / 128, cy := ((7 : ℚ) + 1/2) * 16 / 128
             w := 16 / 128, h := 16 / 128 } :=
  ⟨(generateAnchors_spec 128).1,
    by
      have := (generateAnchors_spec 128).2.1 0 0 0 (by decide) (by decide) (by decide)
      simpa using this,
    (generateAnchors_spec 128).2.2 7 7 5 (by decide) (by decide) (by decide)⟩

/-! ### Embedding validation (`validateEmbedding` in `src/utils/validation.js`) -/

/-- The values a JavaScript number can take at runtime: `NaN`, the two
infinities, or a finite value. -/
inductive JsNum where
  | nan
  | inf
  | negInf
  | fin (q : ℚ)
deriving DecidableEq, Repr

/-- A parsed JavaScript value, to the extent `validateEmbedding` inspects
it: a number, an array, or some other kind of value. -/
inductive JsValue where
  | num (n : JsNum)
  | str
  | boolean (b : Bool)
  | null
  | arr (l : List JsValue)
  | obj

/-- The two embedding validation errors of `src/constants/errors.js`:
`INVALID_EMBEDDING_FORMAT` ("storedEmbedding must be an array of 512
numbers") and `INVALID_EMBEDDING_VALUES` ("storedEmbedding must contain
only valid numbers"). -/
inductive ValidationError where
  | invalidEmbeddingFormat
  | invalidEmbeddingValues
deriving DecidableEq, Repr

/-- `config.faceRecognition.embeddingDimension`. -/
def embeddingDimension : Nat := 512

/-- The JS test `typeof val === 'number' && !isNaN(val)`: true for every
number except `NaN` (both infinities pass), false for any non-number. -/
def isValidNumber : JsValue → Bool
  | .num .nan => false
  | .num _ => true
  | _ => false

/-- Source `validateEmbedding` after `JSON.parse`: non-arrays and
wrong-length arrays are rejected with `INVALID_EMBEDDING_FORMAT`, arrays
containing a non-number or `NaN` with `INVALID_EMBEDDING_VALUES`, and
otherwise the parsed array is returned unchanged. -/
def validateEmbedding (v : JsValue) : Except ValidationError (List JsValue) :=
  match v with
  | .arr l =>
      if l.length ≠ embeddingDimension then .error .invalidEmbeddingFormat
      else if l.all isValidNumber then .ok l
      else .error .invalidEmbeddingValues
  | _ => .error .invalidEmbeddingFormat

/-- C7 counterexample: an array of 512 `Infinity` entries (non-finite) is
accepted, and an array of length 512 containing `NaN` is rejected with the
`INVALID_EMBEDDING_VALUES` error, which is distinct from
`INVALID_EMBEDDING_FORMAT`. -/
theorem validateEmbedding_counterexample :
    validateEmbedding (.arr (List.replicate 512 (.num .inf))) =
      .ok (List.replicate 512 (.num .inf)) ∧
    validateEmbedding (.arr (.num .nan :: List.replicate 511 (.num (.fin 0)))) =
      .error .invalidEmbeddingValues ∧
    decide (ValidationError.invalidEmbeddingValues = ValidationError.invalidEmbeddingFormat)
      = false :=
  ⟨rfl, rfl, by decide⟩

/-- C7 (amended). `validateEmbedding` accepts exactly the arrays of length
512 whose entries are numbers other than `NaN` (infinite values included),
returning the array unchanged; non-arrays and wrong-length arrays fail with
`INVALID_EMBEDDING_FORMAT`, while correct-length arrays holding `NaN` or a
non-number fail with the distinct `INVALID_EMBEDDING_VALUES` error. -/
theorem validateEmbedding_spec (l : List JsValue) :
    (validateEmbedding (.arr l) = .ok l ↔
      l.length = embeddingDimension ∧ l.all isValidNumber = true) ∧
    (l.length ≠ embeddingDimension →
      validateEmbedding (.arr l) = .error .invalidEmbeddingFormat) ∧
    (l.length = embeddingDimension → ¬l.all isValidNumber = true →
      validateEmbedding (.arr l) = .error .invalidEmbeddingValues) ∧
    (∀ v : JsValue, (∀ m, v ≠ .arr m) → validateEmbedding v = .error .invalidEmbeddingFormat) ∧
    (∀ l2, validateEmbedding (.arr l) = .ok l2 → l2 = l) := by
  refine ⟨?_, ?_, ?_, ?_, ?_⟩
  · by_cases hlen : l.length = embeddingDimension
    · by_cases hall : l.all isValidNumber = true
      · simp [validateEmbedding, hlen, hall]
      · simp [validateEmbedding, hlen, hall]
    · simp [validateEmbedding, hlen]
  · intro hlen; simp [validateEmbedding, hlen]
  · intro hlen hall; simp [validateEmbedding, hlen, hall]
  · intro v hv
    match v with
    | .num n => rfl
    | .str => rfl
    | .boolean b => rfl
    | .null => rfl
    | .obj => rfl
    | .arr m => exact absurd rfl (hv m)
  · intro l2 h
    by_cases hlen : l.length = embeddingDimension
    · by_cases hall : l.all isValidNumber = true
      · simp [validateEmbedding, hlen, hall] at h; exact h.symm
      · simp [validateEmbedding, hlen, hall] at h
    · simp [validateEmbedding, hlen] at h

/-- Witness for C7 (amended) at a concrete valid 512-entry array. -/
theorem validateEmbedding_spec_witness :
    validateEmbedding (.arr (List.replicate 512 (.num (.fin 1)))) =
      .ok (List.replicate 512 (.num (.fin 1))) :=
  (validateEmbedding_spec (List.replicate 512 (.num (.fin 1)))).1.mpr
    ⟨by simp [embeddingDimension], by rfl⟩

end FaceVerif
